import Mathlib

/-!
Verification of the Ralph Loop orchestrator (`ralph.py`): a shallow embedding of
the task ledger / batch selector, the textual task-file mutation, the
verification gate, the parallel batch orchestrator and the main-loop scheduling
decision, together with proofs of the behavioural properties of these
components.

Strings are modelled as `List Char` (`Str`); Python string operations used by
the source (`startswith`, `split("-")[0]`, `str.replace`, slicing `[-n:]`,
`strip`, whitespace collapsing) are given explicit executable models below.
-/


/-- Strings of the embedded program, modelled as lists of characters. -/
abbrev Str := List Char

/-- Coercion from Lean string literals to the `Str` model. -/
def str (s : String) : Str := s.data

/-- Python `a.startswith(b)` on the `Str` model (`listStartsWith pat s` is
`s.startswith(pat)`). -/
def listStartsWith : Str → Str → Bool
  | [], _ => true
  | _ :: _, [] => false
  | p :: ps, c :: cs => p == c && listStartsWith ps cs

/-- Python slice `s[-n:]` (the last `n` characters; the whole string when it is
shorter than `n`). -/
def pyLastN (n : Nat) (s : Str) : Str := s.drop (s.length - n)

/-- The ASCII whitespace characters matched by Python's `\s` / `str.strip`. -/
def isPyWhitespace (c : Char) : Bool :=
  c == ' ' || c == '\t' || c == '\n' || c == '\x0b' || c == '\x0c' || c == '\x0d'

/-- Python `str.strip()`: remove leading and trailing whitespace. -/
def pyStrip (s : Str) : Str :=
  ((s.dropWhile isPyWhitespace).reverse.dropWhile isPyWhitespace).reverse

/-- Python `re.sub(r'\s+', ' ', s)`: collapse each whitespace run to one space. -/
def collapseWs : Str → Str
  | [] => []
  | c :: cs =>
    if isPyWhitespace c then ' ' :: collapseWs (cs.dropWhile isPyWhitespace)
    else c :: collapseWs cs
termination_by s => s.length
decreasing_by
  · simp only [List.length_cons]
    exact Nat.lt_succ_of_le (List.dropWhile_sublist isPyWhitespace).length_le
  · simp

/-! ## Task records (`parse_tasks` output)

`parse_tasks` produces one record per checkbox line of TASKS.md: completion
flag, identifier (`<group>-<sequence>`), description, and the enclosing epic's
`[parallel]` flag. -/

structure TaskRec where
  done : Bool
  id : Str
  desc : Str
  epicParallel : Bool
deriving DecidableEq, Repr

/-- `task["id"].split("-")[0]`: the group key of a task identifier, i.e. the
characters before the first dash (the whole identifier if it has no dash). -/
def groupOf (tid : Str) : Str := tid.takeWhile (fun c => c != '-')

/-- `get_next_batch` (ralph.py lines 147-176): the batch selector.  Filters the
pending tasks; an empty list if none are pending; a singleton of the first
pending task when parallel mode is off or its epic is not `[parallel]`;
otherwise the pending tasks of the same epic group that are themselves
parallel-flagged, in ledger order, truncated to `max_parallel`. -/
def getNextBatch (tasks : List TaskRec) (maxParallel : Nat) (noParallel : Bool) :
    List TaskRec :=
  let pending := tasks.filter (fun t => !t.done)
  match pending with
  | [] => []
  | first :: _ =>
    if noParallel || !first.epicParallel then [first]
    else
      let groupKey := groupOf first.id
      (pending.filter
        (fun t => t.epicParallel && listStartsWith (groupKey ++ [ '-' ]) t.id)).take
        maxParallel

/-- `MAX_RETRIES_PER_TASK` (ralph.py line 87). -/
def MAX_RETRIES_PER_TASK : Nat := 3

/-! ## The textual task-file mutation (`mark_task_done`)

`mark_task_done` does `content.replace("- [ ] **{task_id}**", "- [x] **{task_id}**")`
on TASKS.md.  Python `str.replace` scans left to right and replaces every
non-overlapping occurrence; the scan resumes after each replaced occurrence.
`pyReplace` is that scan; `scanSplit` is the matching split of the content into
the maximal pattern-free segments between occurrences (Python
`content.split(pat)`), so that `replace(pat, rep) = rep.join(split(pat))`.
The patterns used here are always non-empty, so the guard `pat ≠ []` never
changes the behaviour relative to Python. -/

/-- Python `content.replace(pat, rep)` for a non-empty `pat`. -/
def pyReplace (pat rep : Str) : Str → Str
  | [] => []
  | c :: cs =>
    if pat ≠ [] ∧ listStartsWith pat (c :: cs) = true then
      rep ++ pyReplace pat rep (cs.drop (pat.length - 1))
    else
      c :: pyReplace pat rep cs
termination_by s => s.length
decreasing_by
  · simp only [List.length_cons]
    exact Nat.lt_succ_of_le (List.drop_sublist _ cs).length_le
  · simp

/-- Python `content.split(pat)` for a non-empty `pat`: the segments of the
content lying between the (leftmost, non-overlapping) pattern occurrences. -/
def scanSplit (pat : Str) : Str → List Str
  | [] => [[]]
  | c :: cs =>
    if pat ≠ [] ∧ listStartsWith pat (c :: cs) = true then
      [] :: scanSplit pat (cs.drop (pat.length - 1))
    else
      match scanSplit pat cs with
      | [] => [[c]]
      | s :: ss => (c :: s) :: ss
termination_by s => s.length
decreasing_by
  · simp only [List.length_cons]
    exact Nat.lt_succ_of_le (List.drop_sublist _ cs).length_le
  · simp

/-- Python `sep.join(segments)`. -/
def joinWith (sep : Str) : List Str → Str
  | [] => []
  | [s] => s
  | s :: ss => s ++ sep ++ joinWith sep ss

/-- Python `pat in content` (substring test). -/
def occursIn (pat : Str) : Str → Bool
  | [] => listStartsWith pat []
  | c :: cs => listStartsWith pat (c :: cs) || occursIn pat cs

/-- The pending checkbox pattern `- [ ] **{task_id}**`. -/
def pendingPat (tid : Str) : Str := str "- [ ] **" ++ tid ++ str "**"

/-- The done checkbox pattern `- [x] **{task_id}**`. -/
def donePat (tid : Str) : Str := str "- [x] **" ++ tid ++ str "**"

/-- `mark_task_done` (ralph.py lines 179-184): flip every `- [ ] **{task_id}**`
in the task-file content to `- [x] **{task_id}**`. -/
def markTaskDone (tid : Str) (content : Str) : Str :=
  pyReplace (pendingPat tid) (donePat tid) content

/-! ## Prompt/guardrail sanitizers (`sanitize_for_prompt`, `sanitize_guardrail`)

These are persisted alongside each failure record; they are modelled so the
failure-memory characterization can state the exact entries written. -/

/-- The characters stripped by `sanitize_for_prompt`'s
regular expression (backtick, dollar, backslash, pipe, semicolon, ampersand,
angle brackets, square brackets, braces). -/
def bannedPromptChars : Str := str "`$\\|;&<>[]\x7b\x7d"

/-- `sanitize_for_prompt` (ralph.py lines 288-296): strip shell
metacharacters, collapse whitespace, strip, truncate to `max_len`. -/
def sanitizeForPrompt (text : Str) (maxLen : Nat) : Str :=
  let cleaned := text.filter (fun c => !(bannedPromptChars.contains c))
  (pyStrip (collapseWs cleaned)).take maxLen

/-- Python `str.splitlines()` restricted to `\n` separators: split on
newlines, without a trailing empty segment. -/
def pySplitLines (s : Str) : List Str :=
  if s = [] then []
  else
    let parts := scanSplit (str "\n") s
    if parts.getLast? = some [] then parts.dropLast else parts

/-- `re.match(r'^\s{0,3}#{1,6}\s', l)`: at most three leading whitespace
characters, one to six hashes, then a whitespace character. -/
def matchesHeading (l : Str) : Bool :=
  let sp := (l.takeWhile isPyWhitespace).length
  if sp ≤ 3 then
    let rest := l.drop sp
    let hashes := (rest.takeWhile (fun c => c == '#')).length
    let rest2 := rest.drop hashes
    1 ≤ hashes && hashes ≤ 6 &&
      (match rest2 with
       | c :: _ => isPyWhitespace c
       | [] => false)
  else false

/-- ASCII word characters (`\w`). -/
def isWordChar (c : Char) : Bool := c.isAlphanum || c == '_'

/-- Case-insensitive keyword at the start of `s` followed by a word
boundary. -/
def kwBoundary (w : Str) (s : Str) : Bool :=
  ((s.take w.length).map Char.toUpper == w) &&
    (match s.drop w.length with
     | [] => true
     | c :: _ => !isWordChar c)

/-- `re.match(r'^\s*(IGNORE|FORGET|SYSTEM|OVERRIDE|INSTRUCTIONS?)\b', l, IGNORECASE)`. -/
def matchesInjectionKeyword (l : Str) : Bool :=
  let rest := l.dropWhile isPyWhitespace
  kwBoundary (str "IGNORE") rest || kwBoundary (str "FORGET") rest ||
  kwBoundary (str "SYSTEM") rest || kwBoundary (str "OVERRIDE") rest ||
  kwBoundary (str "INSTRUCTIONS") rest || kwBoundary (str "INSTRUCTION") rest

/-- `sanitize_guardrail` (ralph.py lines 648-662): drop heading-like and
injection-keyword lines, join, strip, remove backticks and dollars, truncate
to `max_len`. -/
def sanitizeGuardrail (text : Str) (maxLen : Nat) : Str :=
  let lines := pySplitLines text
  let filtered :=
    lines.filter (fun l => !matchesHeading l && !matchesInjectionKeyword l)
  let cleaned := pyStrip (joinWith (str "\n") filtered)
  let cleaned2 := cleaned.filter (fun c => !(c == '`' || c == '$'))
  cleaned2.take maxLen

/-! ## Verification gate (`run_verify`)

`run_verify` runs the configured `VERIFY_STEPS` in order under an external
command executor (modelled as a function from a command to its exit code,
stdout and stderr), stopping at the first non-zero exit. -/

def GREEN : Str := str "\x1b[92m"

def RED : Str := str "\x1b[91m"

def ANSI_RESET : Str := str "\x1b[0m"

/-- The per-step status line `f"{status} {label}"` of `run_verify`. -/
def statusLine (ok : Bool) (label : Str) : Str :=
  (if ok then GREEN ++ str "✓" ++ ANSI_RESET else RED ++ str "✗" ++ ANSI_RESET) ++
    str " " ++ label

def NL : Str := str "\n"

/-- The loop body of `run_verify`: run each step, append its status line,
stop at the first non-zero exit and surface the tail of its captured
output (`(result.stderr or result.stdout)[-1000:]`). -/
def runVerifyAux (exec : List Str → Nat × Str × Str) :
    List (Str × List Str) → List Str → Bool × Str
  | [], outputs => (true, joinWith NL outputs)
  | (label, cmd) :: rest, outputs =>
    let r := exec cmd
    let outputs2 := outputs ++ [statusLine (r.1 == 0) label]
    if r.1 ≠ 0 then
      (false, joinWith NL outputs2 ++ str "\n\nFailed output:\n" ++
        pyLastN 1000 (if r.2.2 = [] then r.2.1 else r.2.2))
    else runVerifyAux exec rest outputs2

/-- `run_verify` (ralph.py lines 600-612). -/
def runVerify (steps : List (Str × List Str))
    (exec : List Str → Nat × Str × Str) : Bool × Str :=
  if steps = [] then (true, str "(no VERIFY_STEPS configured)")
  else runVerifyAux exec steps []

/-! ## Parallel batch orchestrator (`run_parallel_batch`)

The non-dry-run control flow of `run_parallel_batch` (ralph.py lines 795-934)
is modelled as a function over an explicit state:

* `trunk` — the shared branch as a list of merge commits, newest first
  (`git merge --no-ff` prepends one commit; `git reset --hard HEAD~n` drops
  the newest `n`);
* `ledger` — the parsed TASKS.md task records (`mark_task_done` flips the
  checkbox of the matching identifier; record-level view of the textual
  replacement verified separately for `markTaskDone`);
* `progress` / `guardrails` / `activity` — the append-only logs written by
  `log_progress`, `add_guardrail` and `log_activity` (timestamps omitted);
* `teardowns` — the trace of `teardown_worktree` invocations.

External effects are oracles in a `BatchEnv`: whether `setup_worktree`
succeeds per task, the order in which `as_completed` yields the workers
(`finishOrder` — the insertion order of the `results` dict), each worker's
exit status and captured output, whether each `git merge --no-ff` succeeds,
and the verification steps with their command executor.  Console printing and
the `PARALLEL_START`/`PARALLEL_END`/`DONE` activity lines do not affect the
claims and are kept only where a claim mentions them. -/

structure ProgressEntry where
  taskId : Str
  desc : Str
  passed : Bool
  notes : Str
deriving DecidableEq, Repr

structure BatchEnv where
  setupOk : Str → Bool
  finishOrder : List Str
  workerOk : Str → Bool
  workerOut : Str → Str
  mergeOk : Str → Bool
  verifySteps : List (Str × List Str)
  execCmd : List Str → Nat × Str × Str

structure BatchState where
  trunk : List Str
  ledger : List TaskRec
  progress : List ProgressEntry
  guardrails : List (Str × Str)
  activity : List Str
  teardowns : List Str
deriving DecidableEq, Repr

/-- Phase 1: the identifiers whose worktrees were created (the keys of the
`worktrees` dict, in batch order). -/
def worktreeIds (env : BatchEnv) (batch : List TaskRec) : List Str :=
  (batch.filter (fun t => env.setupOk t.id)).map (fun t => t.id)

/-- `tasks_to_run = [t for t in tasks if t["id"] in worktrees]`. -/
def tasksToRun (env : BatchEnv) (batch : List TaskRec) : List TaskRec :=
  batch.filter (fun t => (worktreeIds env batch).contains t.id)

/-- `succeeded`: the workers that exited successfully, in the order their
futures completed (the iteration order of the `results` dict). -/
def succeededIds (env : BatchEnv) : List Str :=
  env.finishOrder.filter env.workerOk

/-- `failed`: the workers that failed, in completion order. -/
def failedIds (env : BatchEnv) : List Str :=
  env.finishOrder.filter (fun tid => !(env.workerOk tid))

/-- Phase 3 iterates `succeeded` in exactly this order, attempting one merge
per element. -/
def mergeAttemptOrder (env : BatchEnv) : List Str := succeededIds env

/-- `merged`: the tasks whose branches merged cleanly, in attempt order. -/
def mergedIds (env : BatchEnv) : List Str :=
  (succeededIds env).filter env.mergeOk

/-- The tasks whose merges conflicted and were aborted. -/
def conflictIds (env : BatchEnv) : List Str :=
  (succeededIds env).filter (fun tid => !(env.mergeOk tid))

/-- The commit message of `git merge --no-ff branch -m "Merge {tid} (parallel)"`. -/
def mergeCommitMsg (tid : Str) : Str := str "Merge " ++ tid ++ str " (parallel)"

/-- Phase 3 loop: attempt each merge in order; a clean merge prepends its
commit to trunk and appends the id to `merged`; a conflict aborts the merge
(trunk unchanged) and logs `MERGE_CONFLICT` to the activity log.  Returns
(trunk, merged, activity entries). -/
def mergeFold (env : BatchEnv) : List Str → List Str → List Str × List Str × List Str
  | [], trunk => (trunk, [], [])
  | tid :: rest, trunk =>
    if env.mergeOk tid then
      let r := mergeFold env rest (mergeCommitMsg tid :: trunk)
      (r.1, tid :: r.2.1, r.2.2)
    else
      let r := mergeFold env rest trunk
      (r.1, r.2.1, (str "MERGE_CONFLICT " ++ tid) :: r.2.2)

/-- Record-level view of `mark_task_done` on the parsed ledger: set the done
flag of every record with the given identifier. -/
def markTaskDoneL (tid : Str) (ledger : List TaskRec) : List TaskRec :=
  ledger.map (fun t => if t.id = tid then { t with done := true } else t)

/-- Phase 5 success loop: `mark_task_done(tid)` for every merged task. -/
def markAllDone (ids : List Str) (ledger : List TaskRec) : List TaskRec :=
  ids.foldl (fun l tid => markTaskDoneL tid l) ledger

/-- `next(t["desc"] for t in tasks if t["id"] == tid)` (the id always comes
from the batch, so the generator never raises). -/
def descOf (batch : List TaskRec) (tid : Str) : Str :=
  match batch.find? (fun t => t.id == tid) with
  | some t => t.desc
  | none => []

/-- The guardrails entry written by `add_guardrail(tid, output[-400:])`. -/
def guardEntry (env : BatchEnv) (tid : Str) : Str × Str :=
  (sanitizeForPrompt tid 20, sanitizeGuardrail (pyLastN 400 (env.workerOut tid)) 400)

/-- The progress entry written by
`log_progress(tid, desc, False, "parallel worker failed")`. -/
def failEntry (batch : List TaskRec) (tid : Str) : ProgressEntry :=
  ⟨tid, descOf batch tid, false, str "parallel worker failed"⟩

/-- The progress entry written by `log_progress(tid, desc, True)`. -/
def doneEntry (batch : List TaskRec) (tid : Str) : ProgressEntry :=
  ⟨tid, descOf batch tid, true, []⟩

/-- `run_parallel_batch` (ralph.py lines 795-934), non-dry-run control flow.
Returns the final state and the returned `done_ids` list. -/
def runParallelBatch (env : BatchEnv) (batch : List TaskRec) (st : BatchState) :
    BatchState × List Str :=
  let wtIds := worktreeIds env batch
  let toRun := tasksToRun env batch
  if toRun = [] then (st, [])
  else
    let succeeded := succeededIds env
    let failed := failedIds env
    let st1 : BatchState := { st with
      guardrails := st.guardrails ++ failed.map (guardEntry env),
      progress := st.progress ++ failed.map (failEntry batch) }
    if succeeded = [] then
      ({ st1 with teardowns := st1.teardowns ++ wtIds }, [])
    else
      let mf := mergeFold env succeeded st1.trunk
      let merged := mf.2.1
      let st2 : BatchState := { st1 with
        trunk := mf.1,
        activity := st1.activity ++ mf.2.2 }
      if merged = [] then
        ({ st2 with teardowns := st2.teardowns ++ wtIds }, [])
      else
        let vok := (runVerify env.verifySteps env.execCmd).1
        if vok then
          let st3 : BatchState := { st2 with
            ledger := markAllDone merged st2.ledger,
            progress := st2.progress ++ merged.map (doneEntry batch),
            activity := st2.activity ++
              merged.map (fun tid => str "DONE " ++ tid ++ str " (parallel)") }
          ({ st3 with teardowns := st3.teardowns ++ wtIds }, merged)
        else
          let st3 : BatchState := { st2 with
            trunk := st2.trunk.drop merged.length,
            activity := st2.activity ++
              [str "VERIFY_FAIL parallel batch — reverted merges"] }
          ({ st3 with teardowns := st3.teardowns ++ wtIds }, [])

/-! ## The main-loop scheduling decision (`run_loop`)

One iteration of `run_loop`'s non-dry-run, non-specific-task scheduling
decision (ralph.py lines 1029-1084): select the next batch; with no batch,
enter planning; with more than one task, run the parallel batch (no retry
check); with exactly one task, stop fatally (`sys.exit(1)`) when the retry
count has reached `MAX_RETRIES_PER_TASK`, otherwise run it sequentially. -/

inductive Decision where
  | planning
  | parallelBatch (batch : List TaskRec)
  | fatalStop (tid : Str)
  | sequential (t : TaskRec)
deriving DecidableEq, Repr

/-- `count_retries_for_task` (ralph.py lines 674-678), record-level view: the
number of failure entries for the identifier in the progress log (each
`log_progress(..., passed=False)` call writes exactly one `✗ ... **id**`
line that the source's regex counts). -/
def countRetriesForTask (progress : List ProgressEntry) (tid : Str) : Nat :=
  (progress.filter (fun e => !e.passed && e.taskId == tid)).length

/-- The scheduling decision of one `run_loop` iteration. -/
def loopStep (tasks : List TaskRec) (progress : List ProgressEntry)
    (maxParallel : Nat) (noParallel : Bool) : Decision :=
  match getNextBatch tasks maxParallel noParallel with
  | [] => Decision.planning
  | [t] =>
    if MAX_RETRIES_PER_TASK ≤ countRetriesForTask progress t.id then
      Decision.fatalStop t.id
    else Decision.sequential t
  | batch => Decision.parallelBatch batch

/-! ## Concrete instances used by counterexamples and witnesses -/

/-- A pending task of the parallel epic group `E2`. -/
def taskA : TaskRec := ⟨false, str "E2-T1", str "implement scanner A", true⟩

/-- A second pending task of the parallel epic group `E2`. -/
def taskB : TaskRec := ⟨false, str "E2-T2", str "implement scanner B", true⟩

/-- A pending `E2` task parsed under an epic heading without `[parallel]`. -/
def taskBnp : TaskRec := ⟨false, str "E2-T2", str "implement scanner B", false⟩

/-- An initial batch state with empty logs and the two-task ledger. -/
def st0 : BatchState := ⟨[], [taskA, taskB], [], [], [], []⟩

/-- Environment: both setups and workers succeed, both merges succeed, the
worker for `E2-T2` finishes first, no verify steps configured. -/
def envC2 : BatchEnv :=
  ⟨fun _ => true, [str "E2-T2", str "E2-T1"], fun _ => true, fun _ => [],
   fun _ => true, [], fun _ => (0, [], [])⟩

/-- Environment: workers succeed in ledger order, `E2-T2`'s merge conflicts,
no verify steps configured. -/
def envC4 : BatchEnv :=
  ⟨fun _ => true, [str "E2-T1", str "E2-T2"], fun _ => true, fun _ => [],
   fun tid => tid == str "E2-T1", [], fun _ => (0, [], [])⟩

/-- Environment: everything succeeds but the configured verification command
exits non-zero. -/
def envC1F : BatchEnv :=
  ⟨fun _ => true, [str "E2-T1", str "E2-T2"], fun _ => true, fun _ => [],
   fun _ => true, [(str "tests", [str "pytest"])], fun _ => (1, str "boom", [])⟩

/-- A progress log holding three failure entries for `E2-T1`. -/
def progress3 : List ProgressEntry :=
  List.replicate 3 ⟨str "E2-T1", str "implement scanner A", false, []⟩

/-- The batch selection described by claim C5's words (refinement comparator,
deliberately following the claim, not the source): all pending tasks of the
first pending task's group, in ledger order, truncated to `max_parallel`. -/
def specBatchC5 (tasks : List TaskRec) (maxParallel : Nat) (noParallel : Bool) :
    List TaskRec :=
  match tasks.filter (fun t => !t.done) with
  | [] => []
  | first :: rest =>
    if noParallel || !first.epicParallel then [first]
    else
      ((first :: rest).filter (fun t => groupOf t.id == groupOf first.id)).take
        maxParallel

/-- A pending task of a non-parallel epic, used on the sequential path. -/
def taskSeq : TaskRec := ⟨false, str "E1-T1", str "bootstrap project", false⟩

/-- A progress log holding three failure entries for `E1-T1`. -/
def progressSeq : List ProgressEntry :=
  List.replicate 3 ⟨str "E1-T1", str "bootstrap project", false, []⟩

/-! ## Claim theorems: verification gate -/

/-- A command executor that fails (exit 1) exactly on the `pytest` command. -/
def execW : List Str → Nat × Str × Str :=
  fun cmd =>
    if cmd = [str "pytest"] then (1, str "collected 3 items", str "assertion failed")
    else (0, str "done", [])

/-! ## Claim theorems: mark_task_done -/

/-- A task file where `E1-T1` is already done and `E1-T2` is pending. -/
def contentDone : Str :=
  str "- [x] **E1-T1** init package\n- [ ] **E1-T2** add tests"

/-! ## Theorems -/

theorem listStartsWith_iff (pat s : Str) :
    listStartsWith pat s = true ↔ ∃ t, s = pat ++ t := by
  induction pat generalizing s with
  | nil => simp [listStartsWith]
  | cons p ps ih =>
    cases s with
    | nil => simp [listStartsWith]
    | cons c cs =>
      simp only [listStartsWith, Bool.and_eq_true, beq_iff_eq, ih]
      constructor
      · rintro ⟨rfl, t, rfl⟩; exact ⟨t, rfl⟩
      · rintro ⟨t, ht⟩
        injection ht with h1 h2
        exact ⟨h1.symm, t, h2⟩

theorem scanSplit_ne_nil (pat content : Str) : scanSplit pat content ≠ [] := by
  rw [scanSplit.eq_def]
  rcases content with _ | ⟨c, cs⟩
  · simp
  · by_cases h : pat ≠ [] ∧ listStartsWith pat (c :: cs) = true
    · simp [h]
    · simp only [h, if_false]
      rcases hsp : scanSplit pat cs with _ | ⟨s, ss⟩ <;> simp

theorem scanSplit_nil (pat : Str) : scanSplit pat [] = [[]] := by
  rw [scanSplit.eq_def]

theorem scanSplit_cons_pos (pat : Str) (c : Char) (cs : Str)
    (h : pat ≠ [] ∧ listStartsWith pat (c :: cs) = true) :
    scanSplit pat (c :: cs) = [] :: scanSplit pat (cs.drop (pat.length - 1)) := by
  rw [scanSplit.eq_def]
  simp only [if_pos h]

theorem scanSplit_cons_neg (pat : Str) (c : Char) (cs : Str)
    (h : ¬(pat ≠ [] ∧ listStartsWith pat (c :: cs) = true)) :
    scanSplit pat (c :: cs) =
      match scanSplit pat cs with
      | [] => [[c]]
      | s :: ss => (c :: s) :: ss := by
  rw [scanSplit.eq_def]
  simp only [if_neg h]

theorem pyReplace_nil (pat rep : Str) : pyReplace pat rep [] = [] := by
  rw [pyReplace.eq_def]

theorem pyReplace_cons_pos (pat rep : Str) (c : Char) (cs : Str)
    (h : pat ≠ [] ∧ listStartsWith pat (c :: cs) = true) :
    pyReplace pat rep (c :: cs) =
      rep ++ pyReplace pat rep (cs.drop (pat.length - 1)) := by
  rw [pyReplace.eq_def]
  simp only [if_pos h]

theorem pyReplace_cons_neg (pat rep : Str) (c : Char) (cs : Str)
    (h : ¬(pat ≠ [] ∧ listStartsWith pat (c :: cs) = true)) :
    pyReplace pat rep (c :: cs) = c :: pyReplace pat rep cs := by
  rw [pyReplace.eq_def]
  simp only [if_neg h]

theorem startsWith_decomp (pat : Str) (c : Char) (cs : Str) (hne : pat ≠ [])
    (h : listStartsWith pat (c :: cs) = true) :
    pat ++ cs.drop (pat.length - 1) = c :: cs := by
  obtain ⟨t, ht⟩ := (listStartsWith_iff _ _).1 h
  rcases pat with _ | ⟨p, ps⟩
  · exact absurd rfl hne
  · have hlen : (p :: ps : Str).length - 1 = ps.length := by simp
    have htl : cs.drop ps.length = t := by
      have h2 : (c :: cs).drop (ps.length + 1) = t := by
        rw [ht]
        have h3 : (p :: ps : Str).length = ps.length + 1 := by simp
        rw [← h3, List.drop_left]
      simpa [List.drop_succ_cons] using h2
    rw [hlen, htl, ← ht]

theorem joinWith_scanSplit (pat content : Str) :
    joinWith pat (scanSplit pat content) = content := by
  suffices H : ∀ n content2, List.length content2 ≤ n →
      joinWith pat (scanSplit pat content2) = content2 by
    exact H content.length content le_rfl
  intro n
  induction n with
  | zero =>
    intro content2 hc
    have h0 : content2 = [] := List.eq_nil_of_length_eq_zero (Nat.le_zero.mp hc)
    subst h0
    rw [scanSplit_nil]
    rfl
  | succ n ih =>
    intro content2 hc
    rcases content2 with _ | ⟨c, cs⟩
    · rw [scanSplit_nil]; rfl
    · by_cases hg : pat ≠ [] ∧ listStartsWith pat (c :: cs) = true
      · rw [scanSplit_cons_pos pat c cs hg]
        have hrec := ih (cs.drop (pat.length - 1)) (by
          have hd := (List.drop_sublist (pat.length - 1) cs).length_le
          simp only [List.length_cons] at hc
          omega)
        rcases hss : scanSplit pat (cs.drop (pat.length - 1)) with _ | ⟨s, ss⟩
        · exact absurd hss (scanSplit_ne_nil _ _)
        · rw [hss] at hrec
          have hj : joinWith pat ([] :: s :: ss) = pat ++ joinWith pat (s :: ss) := by
            simp [joinWith]
          rw [hj, hrec]
          exact startsWith_decomp pat c cs hg.1 hg.2
      · rw [scanSplit_cons_neg pat c cs hg]
        have hrec := ih cs (by simp only [List.length_cons] at hc; omega)
        rcases hss : scanSplit pat cs with _ | ⟨s, ss⟩
        · exact absurd hss (scanSplit_ne_nil _ _)
        · rw [hss] at hrec
          rcases ss with _ | ⟨s2, ss2⟩
          · simp only [joinWith] at hrec ⊢
            rw [hrec]
          · simp only [joinWith, List.cons_append] at hrec ⊢
            exact congrArg (c :: ·) hrec

theorem pyReplace_eq_joinWith (pat rep content : Str) :
    pyReplace pat rep content = joinWith rep (scanSplit pat content) := by
  suffices H : ∀ n content2, List.length content2 ≤ n →
      pyReplace pat rep content2 = joinWith rep (scanSplit pat content2) by
    exact H content.length content le_rfl
  intro n
  induction n with
  | zero =>
    intro content2 hc
    have h0 : content2 = [] := List.eq_nil_of_length_eq_zero (Nat.le_zero.mp hc)
    subst h0
    rw [scanSplit_nil, pyReplace_nil]
    rfl
  | succ n ih =>
    intro content2 hc
    rcases content2 with _ | ⟨c, cs⟩
    · rw [scanSplit_nil, pyReplace_nil]; rfl
    · by_cases hg : pat ≠ [] ∧ listStartsWith pat (c :: cs) = true
      · rw [scanSplit_cons_pos pat c cs hg, pyReplace_cons_pos pat rep c cs hg]
        have hrec := ih (cs.drop (pat.length - 1)) (by
          have hd := (List.drop_sublist (pat.length - 1) cs).length_le
          simp only [List.length_cons] at hc
          omega)
        rcases hss : scanSplit pat (cs.drop (pat.length - 1)) with _ | ⟨s, ss⟩
        · exact absurd hss (scanSplit_ne_nil _ _)
        · rw [hss] at hrec
          have hj : joinWith rep ([] :: s :: ss) = rep ++ joinWith rep (s :: ss) := by
            simp [joinWith]
          rw [hj, ← hrec]
      · rw [scanSplit_cons_neg pat c cs hg, pyReplace_cons_neg pat rep c cs hg]
        have hrec := ih cs (by simp only [List.length_cons] at hc; omega)
        rcases hss : scanSplit pat cs with _ | ⟨s, ss⟩
        · exact absurd hss (scanSplit_ne_nil _ _)
        · rw [hss] at hrec
          rcases ss with _ | ⟨s2, ss2⟩
          · simp only [joinWith] at hrec ⊢
            rw [hrec]
          · simp only [joinWith] at hrec ⊢
            rw [hrec]
            simp

theorem pyReplace_of_not_occurs (pat rep content : Str)
    (h : occursIn pat content = false) : pyReplace pat rep content = content := by
  induction content with
  | nil => exact pyReplace_nil pat rep
  | cons c cs ih =>
    simp only [occursIn, Bool.or_eq_false_iff] at h
    rw [pyReplace_cons_neg pat rep c cs (by
      rintro ⟨-, hsw⟩
      rw [h.1] at hsw
      exact Bool.false_ne_true hsw)]
    rw [ih h.2]

theorem runVerifyAux_all_pass (exec : List Str → Nat × Str × Str)
    (steps : List (Str × List Str)) (outputs : List Str)
    (h : ∀ p ∈ steps, (exec p.2).1 = 0) :
    runVerifyAux exec steps outputs =
      (true, joinWith NL (outputs ++ steps.map (fun p => statusLine true p.1))) := by
  induction steps generalizing outputs with
  | nil => simp [runVerifyAux]
  | cons p rest ih =>
    obtain ⟨label, cmd⟩ := p
    have h0 : (exec cmd).1 = 0 := h (label, cmd) (List.mem_cons_self _ _)
    simp only [runVerifyAux, h0]
    simp only [Nat.zero_ne_one, ne_eq, not_true_eq_false, if_false,
      beq_self_eq_true, not_false_eq_true]
    rw [ih _ (fun q hq => h q (List.mem_cons_of_mem _ hq))]
    simp [List.append_assoc]

theorem runVerifyAux_fail (exec : List Str → Nat × Str × Str)
    (pre : List (Str × List Str)) (l : Str) (c : List Str)
    (post : List (Str × List Str)) (outputs : List Str)
    (hpre : ∀ p ∈ pre, (exec p.2).1 = 0) (hc : (exec c).1 ≠ 0) :
    runVerifyAux exec (pre ++ (l, c) :: post) outputs =
      (false,
        joinWith NL
          (outputs ++ pre.map (fun p => statusLine true p.1) ++ [statusLine false l]) ++
        str "\n\nFailed output:\n" ++
        pyLastN 1000 (if (exec c).2.2 = [] then (exec c).2.1 else (exec c).2.2)) := by
  induction pre generalizing outputs with
  | nil =>
    have hb : ((exec c).1 == 0) = false := by
      simpa using hc
    simp only [List.nil_append, runVerifyAux, hb, hc, ne_eq, not_false_eq_true,
      if_true, List.map_nil, List.append_nil]
  | cons p rest ih =>
    obtain ⟨label, cmd⟩ := p
    have h0 : (exec cmd).1 = 0 := hpre (label, cmd) (List.mem_cons_self _ _)
    simp only [List.cons_append, runVerifyAux, h0]
    simp only [ne_eq, not_true_eq_false, if_false, beq_self_eq_true,
      not_false_eq_true, List.append_eq]
    rw [ih _ (fun q hq => hpre q (List.mem_cons_of_mem _ hq))]
    simp [List.append_assoc]

theorem mergeFold_spec (env : BatchEnv) (s trunk : List Str) :
    mergeFold env s trunk =
      ((s.filter env.mergeOk).reverse.map mergeCommitMsg ++ trunk,
       s.filter env.mergeOk,
       (s.filter (fun tid => !(env.mergeOk tid))).map
         (fun tid => str "MERGE_CONFLICT " ++ tid)) := by
  induction s generalizing trunk with
  | nil => simp [mergeFold]
  | cons tid rest ih =>
    by_cases h : env.mergeOk tid
    · simp only [mergeFold, h, if_true, ih]
      simp [List.filter_cons, h, List.map_append, List.append_assoc]
    · simp only [mergeFold, h, if_false, ih]
      simp [List.filter_cons, h]

theorem tasksToRun_eq (env : BatchEnv) (batch : List TaskRec) :
    tasksToRun env batch = batch.filter (fun t => env.setupOk t.id) := by
  unfold tasksToRun
  apply List.filter_congr
  intro t ht
  cases hs : env.setupOk t.id with
  | true =>
    have hmem : t.id ∈ worktreeIds env batch :=
      List.mem_map_of_mem _ (List.mem_filter.mpr ⟨ht, hs⟩)
    exact List.elem_iff.mpr hmem
  | false =>
    rw [Bool.eq_false_iff]
    intro hcon
    obtain ⟨t2, ht2, hid⟩ := List.mem_map.mp (List.elem_iff.mp hcon)
    have hs2 : env.setupOk t2.id = true := (List.mem_filter.mp ht2).2
    rw [hid] at hs2
    rw [hs] at hs2
    exact Bool.false_ne_true hs2

theorem worktreeIds_nil_iff (env : BatchEnv) (batch : List TaskRec) :
    worktreeIds env batch = [] ↔ tasksToRun env batch = [] := by
  rw [tasksToRun_eq]
  unfold worktreeIds
  simp

theorem markAllDone_eq (ids : List Str) (ledger : List TaskRec) :
    markAllDone ids ledger =
      ledger.map (fun t => if t.id ∈ ids then { t with done := true } else t) := by
  induction ids generalizing ledger with
  | nil =>
    simp only [markAllDone, List.foldl_nil, List.not_mem_nil, if_false]
    simp
  | cons i is ih =>
    simp only [markAllDone, List.foldl_cons]
    have hstep : List.foldl (fun l tid => markTaskDoneL tid l) (markTaskDoneL i ledger) is
        = markAllDone is (markTaskDoneL i ledger) := rfl
    rw [hstep, ih, markTaskDoneL, List.map_map]
    apply List.map_congr_left
    intro t _
    by_cases h1 : t.id = i
    · by_cases h2 : t.id ∈ is <;>
        simp [Function.comp, h1, h2, List.mem_cons]
    · by_cases h2 : t.id ∈ is <;>
        simp [Function.comp, h1, h2, List.mem_cons]

theorem markAllDone_done (ids : List Str) (ledger : List TaskRec) (t : TaskRec)
    (ht : t ∈ markAllDone ids ledger) (hid : t.id ∈ ids) : t.done = true := by
  rw [markAllDone_eq] at ht
  obtain ⟨t0, _, rfl⟩ := List.mem_map.mp ht
  by_cases h : t0.id ∈ ids
  · simp [h]
  · simp only [h, if_false] at hid ⊢

theorem rpb_noRun (env : BatchEnv) (batch : List TaskRec) (st : BatchState)
    (h : tasksToRun env batch = []) :
    runParallelBatch env batch st = (st, []) := by
  simp only [runParallelBatch]
  rw [if_pos h]

theorem rpb_noSucceeded (env : BatchEnv) (batch : List TaskRec) (st : BatchState)
    (h1 : ¬ tasksToRun env batch = []) (h2 : succeededIds env = []) :
    runParallelBatch env batch st =
      ({ st with
          progress := st.progress ++ (failedIds env).map (failEntry batch),
          guardrails := st.guardrails ++ (failedIds env).map (guardEntry env),
          teardowns := st.teardowns ++ worktreeIds env batch }, []) := by
  simp only [runParallelBatch]
  rw [if_neg h1, if_pos h2]

theorem rpb_noMerged (env : BatchEnv) (batch : List TaskRec) (st : BatchState)
    (h1 : ¬ tasksToRun env batch = []) (h2 : ¬ succeededIds env = [])
    (h3 : mergedIds env = []) :
    runParallelBatch env batch st =
      ({ st with
          progress := st.progress ++ (failedIds env).map (failEntry batch),
          guardrails := st.guardrails ++ (failedIds env).map (guardEntry env),
          activity := st.activity ++
            (conflictIds env).map (fun tid => str "MERGE_CONFLICT " ++ tid),
          teardowns := st.teardowns ++ worktreeIds env batch }, []) := by
  have h3' : (succeededIds env).filter env.mergeOk = [] := h3
  simp only [runParallelBatch, mergeFold_spec, h3']
  rw [if_neg h1, if_neg h2]
  simp
  rfl

theorem rpb_commit (env : BatchEnv) (batch : List TaskRec) (st : BatchState)
    (h1 : ¬ tasksToRun env batch = []) (h2 : ¬ succeededIds env = [])
    (h3 : ¬ mergedIds env = [])
    (hv : (runVerify env.verifySteps env.execCmd).1 = true) :
    runParallelBatch env batch st =
      ({ st with
          trunk := (mergedIds env).reverse.map mergeCommitMsg ++ st.trunk,
          ledger := markAllDone (mergedIds env) st.ledger,
          progress := st.progress ++ (failedIds env).map (failEntry batch) ++
            (mergedIds env).map (doneEntry batch),
          guardrails := st.guardrails ++ (failedIds env).map (guardEntry env),
          activity := st.activity ++
            (conflictIds env).map (fun tid => str "MERGE_CONFLICT " ++ tid) ++
            (mergedIds env).map (fun tid => str "DONE " ++ tid ++ str " (parallel)"),
          teardowns := st.teardowns ++ worktreeIds env batch }, mergedIds env) := by
  have h3' : ¬ (succeededIds env).filter env.mergeOk = [] := h3
  simp only [runParallelBatch, mergeFold_spec]
  rw [if_neg h1, if_neg h2]
  simp only [h3', if_false, if_neg h3', hv, if_pos hv, if_true]
  rfl

theorem rpb_revert (env : BatchEnv) (batch : List TaskRec) (st : BatchState)
    (h1 : ¬ tasksToRun env batch = []) (h2 : ¬ succeededIds env = [])
    (h3 : ¬ mergedIds env = [])
    (hv : (runVerify env.verifySteps env.execCmd).1 = false) :
    runParallelBatch env batch st =
      ({ st with
          trunk := ((mergedIds env).reverse.map mergeCommitMsg ++ st.trunk).drop
            (mergedIds env).length,
          progress := st.progress ++ (failedIds env).map (failEntry batch),
          guardrails := st.guardrails ++ (failedIds env).map (guardEntry env),
          activity := st.activity ++
            (conflictIds env).map (fun tid => str "MERGE_CONFLICT " ++ tid) ++
            [str "VERIFY_FAIL parallel batch — reverted merges"],
          teardowns := st.teardowns ++ worktreeIds env batch }, []) := by
  have h3' : ¬ (succeededIds env).filter env.mergeOk = [] := h3
  have hv' : ¬ (runVerify env.verifySteps env.execCmd).1 = true := by
    rw [hv]; exact Bool.false_ne_true
  simp only [runParallelBatch, mergeFold_spec]
  rw [if_neg h1, if_neg h2]
  simp only [h3', if_false, if_neg h3', if_neg hv']
  rfl

/-! ## Batch-selector lemmas -/

theorem getNextBatch_nil (tasks : List TaskRec) (mp : Nat) (np : Bool)
    (h : tasks.filter (fun t => !t.done) = []) :
    getNextBatch tasks mp np = [] := by
  simp only [getNextBatch, h]

theorem getNextBatch_seq (tasks : List TaskRec) (mp : Nat) (np : Bool)
    (first : TaskRec) (rest : List TaskRec)
    (h : tasks.filter (fun t => !t.done) = first :: rest)
    (hcond : (np || !first.epicParallel) = true) :
    getNextBatch tasks mp np = [first] := by
  simp only [getNextBatch, h]
  rw [if_pos hcond]

theorem getNextBatch_par (tasks : List TaskRec) (mp : Nat) (np : Bool)
    (first : TaskRec) (rest : List TaskRec)
    (h : tasks.filter (fun t => !t.done) = first :: rest)
    (hcond : ¬ (np || !first.epicParallel) = true) :
    getNextBatch tasks mp np =
      ((first :: rest).filter
        (fun t => t.epicParallel &&
          listStartsWith (groupOf first.id ++ [ '-' ]) t.id)).take mp := by
  simp only [getNextBatch, h]
  rw [if_neg hcond]

theorem takeWhile_group_key (q : Char → Bool) (p rest : Str)
    (hp : ∀ c ∈ p, q c = true) (hd : q '-' = false) :
    (p ++ '-' :: rest).takeWhile q = p := by
  induction p with
  | nil => simp [List.takeWhile_cons_of_neg, hd]
  | cons a as ih =>
    have ha : q a = true := hp a (List.mem_cons_self _ _)
    simp only [List.cons_append, List.takeWhile_cons_of_pos ha]
    rw [ih (fun c hc => hp c (List.mem_cons_of_mem _ hc))]

theorem groupOf_of_member (p tid : Str) (hp : ∀ c ∈ p, (c != '-') = true)
    (h : listStartsWith (p ++ [ '-' ]) tid = true) : groupOf tid = p := by
  obtain ⟨t, rfl⟩ := (listStartsWith_iff _ _).1 h
  unfold groupOf
  rw [List.append_assoc, List.singleton_append]
  exact takeWhile_group_key _ p t hp (by decide)

theorem startsWith_group_self (tid : Str) (h : '-' ∈ tid) :
    listStartsWith (groupOf tid ++ [ '-' ]) tid = true := by
  unfold groupOf
  induction tid with
  | nil => cases h
  | cons c cs ih =>
    by_cases hc : c = '-'
    · subst hc
      rw [List.takeWhile_cons_of_neg (by decide)]
      simp [listStartsWith]
    · have hmem : '-' ∈ cs := by
        rcases List.mem_cons.mp h with h1 | h1
        · exact absurd h1.symm hc
        · exact h1
      have hcb : (c != '-') = true := by simp [hc]
      rw [List.takeWhile_cons (fun x => x != '-') c cs, if_pos hcb]
      simp only [List.cons_append, listStartsWith, beq_self_eq_true, Bool.true_and]
      exact ih hmem

/-! ## Claim theorems: batch selection -/

/-- C6: for every task list and every `max_parallel` / `no_parallel` setting,
the batch returned by `get_next_batch` never contains two tasks whose
identifiers belong to different groups (different `<group>` prefixes before
the dash). -/
theorem c6_group_isolation (tasks : List TaskRec) (mp : Nat) (np : Bool) :
    ∀ t1 ∈ getNextBatch tasks mp np, ∀ t2 ∈ getNextBatch tasks mp np,
      groupOf t1.id = groupOf t2.id := by
  intro t1 h1 t2 h2
  rcases hp : tasks.filter (fun t => !t.done) with _ | ⟨first, rest⟩
  · rw [getNextBatch_nil tasks mp np hp] at h1
    exact absurd h1 (List.not_mem_nil _)
  · by_cases hcond : (np || !first.epicParallel) = true
    · rw [getNextBatch_seq tasks mp np first rest hp hcond] at h1 h2
      rw [List.mem_singleton] at h1 h2
      rw [h1, h2]
    · rw [getNextBatch_par tasks mp np first rest hp hcond] at h1 h2
      have key : ∀ t, t ∈ ((first :: rest).filter
          (fun t => t.epicParallel &&
            listStartsWith (groupOf first.id ++ [ '-' ]) t.id)).take mp →
          groupOf t.id = groupOf first.id := by
        intro t ht
        have ht2 := List.mem_of_mem_take ht
        have hq := (List.mem_filter.mp ht2).2
        rw [Bool.and_eq_true] at hq
        refine groupOf_of_member _ _ ?_ hq.2
        intro c hc
        simp only [groupOf] at hc
        have hx := List.mem_takeWhile_imp hc
        exact hx
      rw [key t1 h1, key t2 h2]

/-- C6 witness: both members of the concrete two-task parallel batch share
the group key `E2`. -/
theorem c6_group_isolation_witness : groupOf taskA.id = groupOf taskB.id :=
  c6_group_isolation [taskA, taskB] 4 false taskA (by decide) taskB (by decide)

/-- C8: batch selection is pure — the same arguments always produce the same
batch, and the batch is a sublist of the input task list (a read-and-select
operation: the records are returned unmodified, in ledger order). -/
theorem c8_batch_selection_pure (tasks : List TaskRec) (mp : Nat) (np : Bool) :
    getNextBatch tasks mp np = getNextBatch tasks mp np ∧
      (getNextBatch tasks mp np).Sublist tasks := by
  refine ⟨rfl, ?_⟩
  rcases hp : tasks.filter (fun t => !t.done) with _ | ⟨first, rest⟩
  · rw [getNextBatch_nil tasks mp np hp]
    exact List.nil_sublist tasks
  · have hpend : (first :: rest).Sublist tasks := hp ▸ List.filter_sublist tasks
    by_cases hcond : (np || !first.epicParallel) = true
    · rw [getNextBatch_seq tasks mp np first rest hp hcond]
      exact (((List.nil_sublist rest).cons₂ first).trans hpend)
    · rw [getNextBatch_par tasks mp np first rest hp hcond]
      exact ((List.take_sublist _ _).trans (List.filter_sublist _)).trans hpend

/-- C5 (counterexample): the claim fails on two inputs.  With a pending
parallel `E2-T1` followed by a pending `E2-T2` whose epic is not
parallel-flagged, `get_next_batch` returns only `[E2-T1]` while the claim's
description (all pending tasks of the group) yields both; and with
`max_parallel = 0` the parallel branch returns the empty batch although a
pending task exists. -/
theorem c5_counterexample :
    getNextBatch [taskA, taskBnp] 4 false = [taskA] ∧
    specBatchC5 [taskA, taskBnp] 4 false = [taskA, taskBnp] ∧
    getNextBatch [taskA, taskBnp] 4 false ≠ specBatchC5 [taskA, taskBnp] 4 false ∧
    getNextBatch [taskA] 0 false = [] ∧
    [taskA].filter (fun t => !t.done) ≠ [] := by
  refine ⟨by decide, by decide, by decide, by decide, by decide⟩

/-- C5 (amended): batch selection returns the empty batch when there is no
pending task (and, conversely, a non-empty batch whenever a pending task
exists, provided `max_parallel ≥ 1` and the first pending identifier contains
a dash); a singleton of the first pending task when parallel mode is off or
its epic is not parallel-eligible; and otherwise the pending tasks of the
same group *that are themselves parallel-flagged*, in ledger order, truncated
to `max_parallel`. -/
theorem c5_batch_selection (tasks : List TaskRec) (mp : Nat) (np : Bool) :
    (tasks.filter (fun t => !t.done) = [] → getNextBatch tasks mp np = []) ∧
    (∀ first rest, tasks.filter (fun t => !t.done) = first :: rest →
      ((np || !first.epicParallel) = true → getNextBatch tasks mp np = [first]) ∧
      (¬ (np || !first.epicParallel) = true →
        getNextBatch tasks mp np =
          ((first :: rest).filter
            (fun t => t.epicParallel &&
              listStartsWith (groupOf first.id ++ [ '-' ]) t.id)).take mp) ∧
      (1 ≤ mp → '-' ∈ first.id → getNextBatch tasks mp np ≠ [])) := by
  refine ⟨getNextBatch_nil tasks mp np, ?_⟩
  intro first rest h
  refine ⟨getNextBatch_seq tasks mp np first rest h,
    getNextBatch_par tasks mp np first rest h, ?_⟩
  intro hmp hdash
  by_cases hcond : (np || !first.epicParallel) = true
  · rw [getNextBatch_seq tasks mp np first rest h hcond]
    simp
  · rw [getNextBatch_par tasks mp np first rest h hcond]
    have hpar : first.epicParallel = true := by
      cases hep : first.epicParallel
      · exact absurd (by simp [hep]) hcond
      · rfl
    have hsw := startsWith_group_self first.id hdash
    have hfq : (first.epicParallel &&
        listStartsWith (groupOf first.id ++ [ '-' ]) first.id) = true := by
      rw [hpar, hsw]
      rfl
    simp only [List.filter_cons, hfq, if_true]
    rcases mp with _ | n
    · omega
    · simp

/-- C5 witness: on the concrete two-task parallel ledger the characterization
applies, with every hypothesis discharged by computation. -/
theorem c5_batch_selection_witness :
    getNextBatch [taskA, taskB] 4 false =
      ((taskA :: [taskB]).filter
        (fun t => t.epicParallel &&
          listStartsWith (groupOf taskA.id ++ [ '-' ]) t.id)).take 4 :=
  ((c5_batch_selection [taskA, taskB] 4 false).2 taskA [taskB]
    (by decide)).2.1 (by decide)

/-! ## Claim theorems: retry ceiling -/

/-- C3 (counterexample): with two pending tasks of a parallel group and a
progress log holding three recorded failures for `E2-T1` (the configured
ceiling), the main loop nonetheless schedules `E2-T1` into a new parallel
batch: the retry ceiling is not consulted on the parallel-batch path. -/
theorem c3_counterexample :
    MAX_RETRIES_PER_TASK ≤ countRetriesForTask progress3 (str "E2-T1") ∧
    loopStep [taskA, taskB] progress3 4 false =
      Decision.parallelBatch [taskA, taskB] ∧
    taskA ∈ [taskA, taskB] ∧ taskA.id = str "E2-T1" := by
  exact ⟨by decide, by decide, by decide, rfl⟩

/-- C3 (amended): the retry ceiling is enforced only on the sequential
single-task path of the main loop: a task is run sequentially only when its
recorded failure count is below `MAX_RETRIES_PER_TASK`, and a singleton batch
whose task has reached the ceiling halts execution with a fatal stop.
Multi-task parallel batches are scheduled without any retry check. -/
theorem c3_retry_ceiling (tasks : List TaskRec) (progress : List ProgressEntry)
    (mp : Nat) (np : Bool) :
    (∀ t, loopStep tasks progress mp np = Decision.sequential t →
      countRetriesForTask progress t.id < MAX_RETRIES_PER_TASK) ∧
    (∀ t, getNextBatch tasks mp np = [t] →
      MAX_RETRIES_PER_TASK ≤ countRetriesForTask progress t.id →
      loopStep tasks progress mp np = Decision.fatalStop t.id) := by
  constructor
  · intro t ht
    rcases hb : getNextBatch tasks mp np with _ | ⟨t1, _ | ⟨t2, rest⟩⟩
    · simp [loopStep, hb] at ht
    · simp only [loopStep, hb] at ht
      by_cases hr : MAX_RETRIES_PER_TASK ≤ countRetriesForTask progress t1.id
      · rw [if_pos hr] at ht
        exact absurd ht (by simp)
      · rw [if_neg hr] at ht
        injection ht with h
        subst h
        exact Nat.lt_of_not_le hr
    · simp [loopStep, hb] at ht
  · intro t hb hr
    simp only [loopStep, hb]
    rw [if_pos hr]

/-- C3 witness: a singleton batch whose task carries three recorded failures
triggers the fatal stop. -/
theorem c3_retry_ceiling_witness :
    loopStep [taskSeq] progressSeq 4 false = Decision.fatalStop taskSeq.id :=
  (c3_retry_ceiling [taskSeq] progressSeq 4 false).2 taskSeq (by decide) (by decide)

/-! ## Claim theorems: parallel batch orchestrator -/

/-- C1: for every parallel batch cycle, after the cycle completes, either
verification passed and every merged task's completion flag is set in the
ledger (the returned done-ids are exactly the merged tasks, trunk carries
exactly their merge commits), or verification failed and trunk is reset
backward by exactly `N = len(merged)` commits — restoring its pre-cycle
value — with no task marked done; on every early-abort path (no workspace,
no successful worker, no clean merge) trunk and ledger are likewise
untouched.  No intermediate state is left behind. -/
theorem c1_batch_atomicity (env : BatchEnv) (batch : List TaskRec)
    (st : BatchState) :
    (¬ tasksToRun env batch = [] → ¬ succeededIds env = [] →
      ¬ mergedIds env = [] →
      ((runVerify env.verifySteps env.execCmd).1 = true →
        (runParallelBatch env batch st).1.ledger =
          markAllDone (mergedIds env) st.ledger ∧
        (∀ t ∈ (runParallelBatch env batch st).1.ledger,
          t.id ∈ mergedIds env → t.done = true) ∧
        (runParallelBatch env batch st).2 = mergedIds env ∧
        (runParallelBatch env batch st).1.trunk =
          (mergedIds env).reverse.map mergeCommitMsg ++ st.trunk) ∧
      ((runVerify env.verifySteps env.execCmd).1 = false →
        (runParallelBatch env batch st).1.trunk =
          ((mergedIds env).reverse.map mergeCommitMsg ++ st.trunk).drop
            (mergedIds env).length ∧
        (runParallelBatch env batch st).1.trunk = st.trunk ∧
        (runParallelBatch env batch st).1.ledger = st.ledger ∧
        (runParallelBatch env batch st).2 = [])) ∧
    ((tasksToRun env batch = [] ∨ succeededIds env = [] ∨ mergedIds env = []) →
      (runParallelBatch env batch st).1.trunk = st.trunk ∧
      (runParallelBatch env batch st).1.ledger = st.ledger ∧
      (runParallelBatch env batch st).2 = []) := by
  constructor
  · intro h1 h2 h3
    constructor
    · intro hv
      rw [rpb_commit env batch st h1 h2 h3 hv]
      refine ⟨rfl, ?_, rfl, rfl⟩
      intro t ht hid
      exact markAllDone_done _ _ t ht hid
    · intro hv
      rw [rpb_revert env batch st h1 h2 h3 hv]
      refine ⟨rfl, ?_, rfl, rfl⟩
      exact List.drop_left' (by simp)
  · intro h
    by_cases h1 : tasksToRun env batch = []
    · rw [rpb_noRun env batch st h1]
      exact ⟨rfl, rfl, rfl⟩
    · by_cases h2 : succeededIds env = []
      · rw [rpb_noSucceeded env batch st h1 h2]
        exact ⟨rfl, rfl, rfl⟩
      · have h3 : mergedIds env = [] := by
          rcases h with h | h | h
          · exact absurd h h1
          · exact absurd h h2
          · exact h
        rw [rpb_noMerged env batch st h1 h2 h3]
        exact ⟨rfl, rfl, rfl⟩

/-- C1 witness: with a failing verification command, the concrete two-task
batch leaves trunk and ledger exactly as they were. -/
theorem c1_batch_atomicity_witness :
    (runParallelBatch envC1F [taskA, taskB] st0).1.trunk = st0.trunk ∧
    (runParallelBatch envC1F [taskA, taskB] st0).1.ledger = st0.ledger :=
  have h := ((c1_batch_atomicity envC1F [taskA, taskB] st0).1
    (by decide) (by decide) (by decide)).2 (by decide)
  ⟨h.2.1, h.2.2.1⟩

/-- C2 (counterexample): with both workers succeeding but `E2-T2` finishing
before `E2-T1`, the merges are attempted in completion order `[E2-T2, E2-T1]`
— not the ledger order `[E2-T1, E2-T2]` — as witnessed by the final trunk,
whose newest commit is `E2-T1`'s (so `E2-T2` was merged first).  `succeeded`
is built from the `results` dict, whose insertion order is `as_completed`
order, so the claim's ledger-order guarantee is false. -/
theorem c2_counterexample :
    mergeAttemptOrder envC2 = [str "E2-T2", str "E2-T1"] ∧
    ((tasksToRun envC2 [taskA, taskB]).map (fun t => t.id)).filter
      envC2.workerOk = [str "E2-T1", str "E2-T2"] ∧
    mergeAttemptOrder envC2 ≠
      ((tasksToRun envC2 [taskA, taskB]).map (fun t => t.id)).filter
        envC2.workerOk ∧
    (runParallelBatch envC2 [taskA, taskB] st0).1.trunk =
      [mergeCommitMsg (str "E2-T1"), mergeCommitMsg (str "E2-T2")] := by
  exact ⟨by decide, by decide, by decide, by decide⟩

/-- C2 (amended): merges are attempted sequentially, one at a time, in
worker-completion order (the insertion order of the `results` dict), which is
a permutation of the successful tasks in ledger order but not necessarily
ledger order itself; the trunk commits of a committed batch reflect exactly
that order. -/
theorem c2_merge_order (env : BatchEnv) (batch : List TaskRec) (st : BatchState)
    (hperm : env.finishOrder.Perm ((tasksToRun env batch).map (fun t => t.id))) :
    mergeAttemptOrder env = env.finishOrder.filter env.workerOk ∧
    (mergeAttemptOrder env).Perm
      (((tasksToRun env batch).map (fun t => t.id)).filter env.workerOk) ∧
    (¬ tasksToRun env batch = [] → ¬ succeededIds env = [] →
      ¬ mergedIds env = [] →
      (runVerify env.verifySteps env.execCmd).1 = true →
      (runParallelBatch env batch st).1.trunk =
        (mergedIds env).reverse.map mergeCommitMsg ++ st.trunk) := by
  refine ⟨rfl, hperm.filter _, ?_⟩
  intro h1 h2 h3 hv
  rw [rpb_commit env batch st h1 h2 h3 hv]

/-- C2 witness: the amended characterization applied to the concrete
out-of-order environment, every hypothesis discharged by computation. -/
theorem c2_merge_order_witness :
    (runParallelBatch envC2 [taskA, taskB] st0).1.trunk =
      (mergedIds envC2).reverse.map mergeCommitMsg ++ st0.trunk :=
  (c2_merge_order envC2 [taskA, taskB] st0 (by decide)).2.2
    (by decide) (by decide) (by decide) (by decide)

theorem count_of_nodup (l : List Str) (hnd : l.Nodup) (tid : Str) :
    (tid ∈ l → l.count tid = 1) ∧ (tid ∉ l → l.count tid = 0) := by
  induction l with
  | nil => simp
  | cons a as ih =>
    rw [List.nodup_cons] at hnd
    obtain ⟨ha, hnd2⟩ := hnd
    obtain ⟨ih1, ih0⟩ := ih hnd2
    constructor
    · intro hm
      rcases List.mem_cons.mp hm with h | h
      · subst h
        rw [List.count_cons_self, ih0 ha]
      · have hne : tid ≠ a := by
          rintro rfl
          exact ha h
        rw [List.count_cons_of_ne hne, ih1 h]
    · intro hm
      have hne : tid ≠ a := fun he => hm (he ▸ List.mem_cons_self a as)
      have hnm : tid ∉ as := fun h2 => hm (List.mem_cons_of_mem a h2)
      rw [List.count_cons_of_ne hne, ih0 hnm]

/-- C9: on every non-dry-run control path of a parallel batch cycle, the
teardown trace grows by exactly the list of acquired workspaces, so (for a
ledger with unique identifiers) `teardown_worktree` is invoked exactly once
for each workspace that was successfully acquired in that cycle, and never
for anything else. -/
theorem c9_teardown_once (env : BatchEnv) (batch : List TaskRec)
    (st : BatchState) :
    (runParallelBatch env batch st).1.teardowns =
      st.teardowns ++ worktreeIds env batch ∧
    ((batch.map (fun t => t.id)).Nodup →
      (∀ tid ∈ worktreeIds env batch, (worktreeIds env batch).count tid = 1) ∧
      (∀ tid, tid ∉ worktreeIds env batch →
        (worktreeIds env batch).count tid = 0)) := by
  constructor
  · by_cases h1 : tasksToRun env batch = []
    · rw [rpb_noRun env batch st h1]
      have hw : worktreeIds env batch = [] := (worktreeIds_nil_iff env batch).mpr h1
      rw [hw]
      simp
    · by_cases h2 : succeededIds env = []
      · rw [rpb_noSucceeded env batch st h1 h2]
      · by_cases h3 : mergedIds env = []
        · rw [rpb_noMerged env batch st h1 h2 h3]
        · cases hv : (runVerify env.verifySteps env.execCmd).1
          · rw [rpb_revert env batch st h1 h2 h3 hv]
          · rw [rpb_commit env batch st h1 h2 h3 hv]
  · intro hnd
    have hsub : (worktreeIds env batch).Sublist (batch.map (fun t => t.id)) := by
      unfold worktreeIds
      exact (List.filter_sublist batch).map _
    have hnd2 : (worktreeIds env batch).Nodup := hnd.sublist hsub
    exact ⟨fun tid hm => (count_of_nodup _ hnd2 tid).1 hm,
      fun tid hm => (count_of_nodup _ hnd2 tid).2 hm⟩

/-- C9 witness: in the concrete batch each acquired workspace appears exactly
once in the teardown trace. -/
theorem c9_teardown_once_witness :
    (worktreeIds envC2 [taskA, taskB]).count (str "E2-T1") = 1 :=
  ((c9_teardown_once envC2 [taskA, taskB] st0).2 (by decide)).1
    (str "E2-T1") (by decide)

/-! ## Claim theorems: failure memory -/

theorem filter_map_failEntries (batch : List TaskRec) (ids : List Str) :
    (ids.map (failEntry batch)).filter (fun e => !e.passed) =
      ids.map (failEntry batch) := by
  rw [List.filter_eq_self]
  intro e he
  obtain ⟨tid, -, rfl⟩ := List.mem_map.mp he
  rfl

theorem filter_map_doneEntries (batch : List TaskRec) (ids : List Str) :
    (ids.map (doneEntry batch)).filter (fun e => !e.passed) = [] := by
  rw [List.filter_eq_nil_iff]
  intro e he
  obtain ⟨tid, -, rfl⟩ := List.mem_map.mp he
  simp [doneEntry]

/-- C4 (counterexample): in a batch where `E2-T2`'s merge conflicts (both
workers having succeeded) and verification passes, the cycle ends with no
guardrail entry at all and no progress entry for `E2-T2`; the conflict is
recorded only in the activity log.  A merge conflict therefore produces no
failure record in the failure memory, so the claim is false. -/
theorem c4_counterexample :
    str "E2-T2" ∈ conflictIds envC4 ∧
    (runParallelBatch envC4 [taskA, taskB] st0).1.guardrails = [] ∧
    (runParallelBatch envC4 [taskA, taskB] st0).1.progress.filter
      (fun e => e.taskId == str "E2-T2") = [] ∧
    (str "MERGE_CONFLICT " ++ str "E2-T2") ∈
      (runParallelBatch envC4 [taskA, taskB] st0).1.activity := by
  exact ⟨by decide, by decide, by decide, by decide⟩

/-- C4 (amended): the failure memory (progress log and guardrails) records
exactly the worker failures — each failed worker contributes one guardrail
entry with a sanitized, length-capped (≤ 400) summary of its output tail and
one failure entry in the progress log; merge conflicts and batch-level
reverts leave the failure memory untouched, the conflicts being logged only
as `MERGE_CONFLICT` lines in the activity log. -/
theorem c4_failure_memory (env : BatchEnv) (batch : List TaskRec)
    (st : BatchState)
    (hperm : env.finishOrder.Perm ((tasksToRun env batch).map (fun t => t.id))) :
    (runParallelBatch env batch st).1.guardrails =
      st.guardrails ++ (failedIds env).map (guardEntry env) ∧
    (runParallelBatch env batch st).1.progress.filter (fun e => !e.passed) =
      st.progress.filter (fun e => !e.passed) ++
        (failedIds env).map (failEntry batch) ∧
    (∀ p ∈ (failedIds env).map (guardEntry env), p.2.length ≤ 400) ∧
    (¬ tasksToRun env batch = [] → ∀ tid ∈ conflictIds env,
      (str "MERGE_CONFLICT " ++ tid) ∈
        (runParallelBatch env batch st).1.activity) := by
  have hcap : ∀ p ∈ (failedIds env).map (guardEntry env), p.2.length ≤ 400 := by
    intro p hp
    obtain ⟨tid, -, rfl⟩ := List.mem_map.mp hp
    simp only [guardEntry, sanitizeGuardrail]
    exact List.length_take_le _ _
  by_cases h1 : tasksToRun env batch = []
  · have hford : env.finishOrder = [] := by
      have hmap : (tasksToRun env batch).map (fun t => t.id) = [] := by
        rw [h1]
        rfl
      exact (hmap ▸ hperm).eq_nil
    have hfail : failedIds env = [] := by simp [failedIds, hford]
    rw [rpb_noRun env batch st h1]
    exact ⟨by simp [hfail], by simp [hfail], hcap, fun hx => absurd h1 hx⟩
  · by_cases h2 : succeededIds env = []
    · rw [rpb_noSucceeded env batch st h1 h2]
      refine ⟨rfl, ?_, hcap, ?_⟩
      · simp [List.filter_append, filter_map_failEntries]
      · intro hx tid htid
        have hcon : conflictIds env = [] := by simp [conflictIds, h2]
        rw [hcon] at htid
        exact absurd htid (List.not_mem_nil _)
    · by_cases h3 : mergedIds env = []
      · rw [rpb_noMerged env batch st h1 h2 h3]
        refine ⟨rfl, ?_, hcap, ?_⟩
        · simp [List.filter_append, filter_map_failEntries]
        · intro hx tid htid
          exact List.mem_append_right _ (List.mem_map_of_mem _ htid)
      · cases hv : (runVerify env.verifySteps env.execCmd).1
        · rw [rpb_revert env batch st h1 h2 h3 hv]
          refine ⟨rfl, ?_, hcap, ?_⟩
          · simp [List.filter_append, filter_map_failEntries]
          · intro hx tid htid
            exact List.mem_append_left _
              (List.mem_append_right _ (List.mem_map_of_mem _ htid))
        · rw [rpb_commit env batch st h1 h2 h3 hv]
          refine ⟨rfl, ?_, hcap, ?_⟩
          · simp [List.filter_append, filter_map_failEntries,
              filter_map_doneEntries]
          · intro hx tid htid
            exact List.mem_append_left _
              (List.mem_append_right _ (List.mem_map_of_mem _ htid))

/-- C4 witness: the amended characterization applied to the concrete
conflicting batch. -/
theorem c4_failure_memory_witness :
    (runParallelBatch envC4 [taskA, taskB] st0).1.guardrails =
      st0.guardrails ++ (failedIds envC4).map (guardEntry envC4) :=
  (c4_failure_memory envC4 [taskA, taskB] st0 (by decide)).1

/-- C7: the verification gate passes trivially — running no command — when no
verification steps are configured; otherwise it runs the configured
(label, command) pairs in order, returns failed at the first command with
non-zero exit, surfacing the tail of that command's captured output
(`(stderr or stdout)[-1000:]`) in the report and evaluating no later command
(the result is independent of everything after the failing step), and
returns passed only when every command exits zero. -/
theorem c7_verification_gate :
    (∀ e1 e2 : List Str → Nat × Str × Str,
      runVerify [] e1 = (true, str "(no VERIFY_STEPS configured)") ∧
      runVerify [] e1 = runVerify [] e2) ∧
    (∀ (exec : List Str → Nat × Str × Str) (steps : List (Str × List Str)),
      (∀ p ∈ steps, (exec p.2).1 = 0) → (runVerify steps exec).1 = true) ∧
    (∀ (exec : List Str → Nat × Str × Str) (pre : List (Str × List Str))
        (l : Str) (c : List Str) (post : List (Str × List Str)),
      (∀ p ∈ pre, (exec p.2).1 = 0) → (exec c).1 ≠ 0 →
      runVerify (pre ++ (l, c) :: post) exec =
        (false,
          joinWith NL
            (pre.map (fun p => statusLine true p.1) ++ [statusLine false l]) ++
          str "\n\nFailed output:\n" ++
          pyLastN 1000
            (if (exec c).2.2 = [] then (exec c).2.1 else (exec c).2.2)) ∧
      (∀ post2, runVerify (pre ++ (l, c) :: post2) exec =
        runVerify (pre ++ (l, c) :: post) exec)) := by
  refine ⟨?_, ?_, ?_⟩
  · intro e1 e2
    exact ⟨by simp [runVerify], by simp [runVerify]⟩
  · intro exec steps h
    rcases steps with _ | ⟨p, rest⟩
    · simp [runVerify]
    · rw [runVerify, if_neg (by simp)]
      rw [runVerifyAux_all_pass exec _ [] h]
  · intro exec pre l c post hpre hc
    have hkey : ∀ post' : List (Str × List Str),
        runVerify (pre ++ (l, c) :: post') exec =
          (false,
            joinWith NL ([] ++ pre.map (fun p => statusLine true p.1) ++
              [statusLine false l]) ++
            str "\n\nFailed output:\n" ++
            pyLastN 1000
              (if (exec c).2.2 = [] then (exec c).2.1 else (exec c).2.2)) := by
      intro post'
      rw [runVerify, if_neg (by simp)]
      exact runVerifyAux_fail exec pre l c post' [] hpre hc
    refine ⟨?_, fun post2 => (hkey post2).trans (hkey post).symm⟩
    rw [hkey post]
    simp

/-- C7 witness: with one passing `make` step before a failing `pytest` step,
the gate's result does not depend on a step listed after the failure. -/
theorem c7_verification_gate_witness :
    runVerify [(str "build", [str "make"]), (str "tests", [str "pytest"]),
        (str "later", [str "lint"])] execW =
      runVerify [(str "build", [str "make"]), (str "tests", [str "pytest"])]
        execW :=
  ((c7_verification_gate.2.2 execW [(str "build", [str "make"])]
    (str "tests") [str "pytest"] [] (by decide) (by decide)).2
    [(str "later", [str "lint"])])

/-- C10: `mark_task_done` changes in the task file only the occurrences of
the exact pending pattern `- [ ] **id**`, each becoming `- [x] **id**`: the
file splits into the segments between pending-pattern occurrences, the output
is exactly those untouched segments rejoined with the done pattern (so every
other character, including every other task's checkbox, is unchanged); and
when the pending pattern is absent — the identifier already done — the call
leaves the file identical (idempotent second call). -/
theorem c10_mark_task_done (tid content : Str) :
    (markTaskDone tid content =
      joinWith (donePat tid) (scanSplit (pendingPat tid) content) ∧
     joinWith (pendingPat tid) (scanSplit (pendingPat tid) content) = content) ∧
    (occursIn (pendingPat tid) content = false →
      markTaskDone tid content = content) := by
  refine ⟨⟨pyReplace_eq_joinWith _ _ _, joinWith_scanSplit _ _⟩, ?_⟩
  intro h
  exact pyReplace_of_not_occurs _ _ _ h

/-- C10 witness: marking the already-done `E1-T1` leaves the concrete task
file — including the pending `E1-T2` checkbox — byte-for-byte identical. -/
theorem c10_mark_task_done_witness :
    markTaskDone (str "E1-T1") contentDone = contentDone :=
  (c10_mark_task_done (str "E1-T1") contentDone).2 (by decide)
